import Mathlib

/-
Verification of the dc.js data core: the filter set manager and
render/redraw lifecycle of src/src/base-mixin.js, and the stacking layout
engine of the StackMixin source file (src/unnamed/part_000).

JavaScript values are embedded shallowly: machine numbers become Int,
arrays become List, objects with string keys become association functions,
and the absent/null distinction is carried by Option.
-/

namespace DC

/-! ## Filter values (base-mixin.js)

A stored filter is either a plain scalar value or a ranged filter.
Modelled from the spec: ranged filter values (dc filter objects are not under
src/) are two element arrays carrying an isFiltered predicate with inclusive
containment semantics.

The source compares filters with the symmetric JavaScript comparison
f <= g && f >= g.  For two numbers this is numeric equality.  For a number
against a two element array the array coerces to the string "lo,hi", which
converts to NaN, so both comparisons are false.  For two two element arrays
both sides coerce to their comma separated strings and the conjunction of
string <= and string >= holds exactly when the strings are equal, that is
when the endpoints agree.  symEq is that conjunction. -/

inductive FilterVal where
  | scalar (n : Int)
  | ranged (lo hi : Int)
deriving DecidableEq, Repr

/-- The conjunction f <= g && f >= g of the two JavaScript comparisons,
as used by hasFilter and removeFilter in base-mixin.js. -/
def symEq : FilterVal → FilterVal → Bool
  | .scalar a, .scalar b => a == b
  | .ranged a b, .ranged c d => a == c && b == d
  | _, _ => false

/-- True when the filter value exposes an isFiltered capability
(modelled from the spec: ranged filter objects expose isFiltered). -/
def hasIsFiltered : FilterVal → Bool
  | .ranged _ _ => true
  | .scalar _ => false

/-- Modelled from the spec: the isFiltered predicate of a ranged filter,
inclusive containment of a scalar datum. -/
def isFilteredOn : FilterVal → FilterVal → Bool
  | .ranged lo hi, .scalar d => decide (lo ≤ d) && decide (d ≤ hi)
  | _, _ => false

/-- Argument passed to chart.filter: null, a single filter value, or the
bulk toggle form (an array whose first element is an array and which does
not expose isFiltered). -/
inductive FilterArg where
  | nullArg
  | val (v : FilterVal)
  | bulkToggle (vs : List FilterVal)
deriving DecidableEq, Repr

/-- A filtered event fired at the listeners, carrying the value the source
passes to _invokeFilteredListener (null is represented by nullArg). -/
inductive FEvent where
  | filtered (arg : FilterArg)
deriving DecidableEq, Repr

/-- The filtering view of a chart from base-mixin.js: the stored _filters
array, whether a dimension with a filter method is bound, and the pluggable
_filterHandler.  The handler result is Option because the source keeps the
old list when the handler returns a falsy value (fs ? fs : _filters); a
returned array, even empty, is truthy. -/
structure FilterChart where
  filters : List FilterVal
  dimensionBound : Bool
  filterHandler : List FilterVal → Option (List FilterVal)

/-- The default _filterHandler returns the filter list it was passed
(its dimension side effects are outside the data model). -/
def defaultFilterHandler : List FilterVal → Option (List FilterVal) :=
  fun fs => some fs

/-- applyFilters from base-mixin.js: when a dimension is bound, run the
handler on the stored filters and adopt its result when truthy. -/
def applyFiltersState (c : FilterChart) : FilterChart :=
  if c.dimensionBound then
    match c.filterHandler c.filters with
    | some fs => { c with filters := fs }
    | none => c
  else c

/-- hasFilter(filter) from base-mixin.js:
_filters.some(f => filter <= f && filter >= f). -/
def hasFilter (c : FilterChart) (v : FilterVal) : Bool :=
  c.filters.any (fun f => symEq v f)

/-- hasFilter() with no argument: _filters.length > 0. -/
def hasAnyFilter (c : FilterChart) : Bool :=
  !c.filters.isEmpty

/-- The removeFilter loop: splice out the first stored f with
f <= v && f >= v, then stop. -/
def removeFirstMatch : List FilterVal → FilterVal → List FilterVal
  | [], _ => []
  | f :: rest, v => if symEq f v then rest else f :: removeFirstMatch rest v

/-- addFilter from base-mixin.js: push, apply, fire filtered. -/
def addFilterOp (c : FilterChart) (v : FilterVal) : FilterChart × List FEvent :=
  (applyFiltersState { c with filters := c.filters ++ [v] }, [.filtered (.val v)])

/-- removeFilter from base-mixin.js: splice the first symmetric match,
apply, fire filtered. -/
def removeFilterOp (c : FilterChart) (v : FilterVal) : FilterChart × List FEvent :=
  (applyFiltersState { c with filters := removeFirstMatch c.filters v },
   [.filtered (.val v)])

/-- resetFilters from base-mixin.js: empty the list, apply, fire filtered
with null. -/
def resetFiltersOp (c : FilterChart) : FilterChart × List FEvent :=
  (applyFiltersState { c with filters := [] }, [.filtered .nullArg])

/-- JavaScript indexOf over the stored filters using strict equality:
numbers compare by value, two distinct array objects are never strictly
equal (the model conservatively treats ranged filters as distinct objects). -/
def strictIndexOf (l : List FilterVal) (d : FilterVal) : Int :=
  match d with
  | .scalar n =>
    match l.findIdx? (fun f => f == .scalar n) with
    | some i => (i : Int)
    | none => -1
  | .ranged _ _ => -1

/-- JavaScript splice(start, 1): a negative start counts from the end,
clamped at zero; a start at or past the length removes nothing. -/
def spliceOne (l : List FilterVal) (i : Int) : List FilterVal :=
  let s := (if i < 0 then max (Int.ofNat l.length + i) 0 else min i (Int.ofNat l.length)).toNat
  l.take s ++ l.drop (s + 1)

/-- One step of the bulk toggle loop in chart.filter: if the element is
present (hasFilter semantics) splice it out at its strict indexOf position,
else push it. -/
def bulkStep (fl : List FilterVal) (d : FilterVal) : List FilterVal :=
  if fl.any (fun f => symEq d f) then spliceOne fl (strictIndexOf fl d)
  else fl ++ [d]

/-- chart.filter(_) from base-mixin.js, restricted to its data model effects
(the turnOnControls / turnOffControls UI calls render no data).  Returns the
new chart state and the filtered events fired, in order. -/
def filterOp (c : FilterChart) (arg : FilterArg) : FilterChart × List FEvent :=
  match arg with
  | .bulkToggle vs =>
    (applyFiltersState { c with filters := vs.foldl bulkStep c.filters },
     [.filtered (.bulkToggle vs)])
  | .nullArg => resetFiltersOp c
  | .val v => if hasFilter c v then removeFilterOp c v else addFilterOp c v

/-- chart.filterAll() from base-mixin.js: return _chart.filter(null). -/
def filterAllOp (c : FilterChart) : FilterChart × List FEvent :=
  filterOp c .nullArg

/-- The hasFilter the spec describes, to be compared with the source
hasFilter: some stored filter symmetrically equal to v, or exposing an
isFiltered capability that accepts v. -/
def hasFilterSpec (c : FilterChart) (v : FilterVal) : Bool :=
  c.filters.any (fun f => symEq v f || (hasIsFiltered f && isFilteredOn f v))

/-! ## Render and redraw lifecycle (base-mixin.js) -/

/-- Observable steps of a render or redraw call, in the order the source
performs them.  invalidState records the message of the thrown
InvalidStateException; a renderlet step carries its registration index. -/
inductive LcEvent where
  | preRender
  | postRender
  | preRedraw
  | postRedraw
  | doRender
  | doRedraw
  | legendRender
  | renderlet (i : Nat)
  | invalidState (msg : String)
deriving DecidableEq, Repr

/-- The lifecycle view of a chart from base-mixin.js.  getAttr a is none
when _chart[a] is absent or falsy, and some b when calling it yields a
value of truthiness b.  mandatoryAttributes is none when the list itself
was set falsy (render then skips validation entirely). -/
structure LifecycleChart where
  mandatoryAttributes : Option (List String)
  getAttr : String → Option Bool
  anchorName : String
  hasLegend : Bool
  renderletCount : Nat

/-- The default _mandatoryAttributes list. -/
def defaultMandatoryAttributes : List String := ["dimension", "group"]

/-- The check in checkForMandatoryAttributes: the attribute method exists
and returns a truthy value. -/
def attrOk (c : LifecycleChart) (a : String) : Bool :=
  match c.getAttr a with
  | some b => b
  | none => false

/-- Message of the InvalidStateException thrown by
checkForMandatoryAttributes. -/
def invalidStateMsg (a anchor : String) : String :=
  "Mandatory attribute chart." ++ a ++ " is missing on chart[#" ++ anchor ++ "]"

/-- The tail of a successful render or redraw: drawing hook, legend render
when a legend is attached, the renderlets in registration order, then the
closing listener event. -/
def drawTail (c : LifecycleChart) (draw closing : LcEvent) : List LcEvent :=
  [draw] ++ (if c.hasLegend then [.legendRender] else [])
    ++ (List.range c.renderletCount).map .renderlet ++ [closing]

/-- chart.render() from base-mixin.js as its event trace: fire preRender,
then walk the mandatory attribute list with forEach, throwing at the first
attribute failing the check (which aborts the call before _doRender);
otherwise draw, render the legend, run renderlets and fire postRender.
The transition scheduling of _activateRenderlets is timing, not data, and
is collapsed to the synchronous order. -/
def render (c : LifecycleChart) : List LcEvent :=
  [.preRender] ++
    match c.mandatoryAttributes with
    | some attrs =>
      match attrs.find? (fun a => !attrOk c a) with
      | some a => [.invalidState (invalidStateMsg a c.anchorName)]
      | none => drawTail c .doRender .postRender
    | none => drawTail c .doRender .postRender

/-- chart.redraw() from base-mixin.js: fire preRedraw, always call
_doRedraw, render the legend, run renderlets, fire postRedraw.  No
mandatory attribute validation occurs. -/
def redraw (c : LifecycleChart) : List LcEvent :=
  [.preRedraw] ++ drawTail c .doRedraw .postRedraw

/-! ## Ordering utility (base-mixin.js _computeOrderedGroups)

The source copies the input with data.slice(0), returns the copy directly
when its length is at most one, and otherwise sorts the copy in place with
crossfilter.quicksort.by(_ordering) and returns it.

Modelled from the spec: crossfilter.quicksort.by (the crossfilter library
is not under src/) is a sort ascending by extracted key using a stable
comparison; it is embedded as insertion sort by key.

Array mutation is made observable by threading a store of arrays: an array
is a cell in the store, _computeOrderedGroups reads the cell named by ref,
allocates a fresh cell for the slice copy, and only ever writes that fresh
cell. -/

/-- Ascending comparison by extracted key. -/
def keyLe {α : Type} (key : α → Int) (a b : α) : Prop :=
  key a ≤ key b

instance {α : Type} (key : α → Int) : DecidableRel (keyLe key) :=
  fun a b => inferInstanceAs (Decidable (key a ≤ key b))

instance {α : Type} (key : α → Int) : IsTotal α (keyLe key) :=
  ⟨fun a b => Int.le_total (key a) (key b)⟩

instance {α : Type} (key : α → Int) : IsTrans α (keyLe key) :=
  ⟨fun _ _ _ h1 h2 => le_trans h1 h2⟩

/-- Modelled from the spec: the stable ascending sort by extracted key
standing in for crossfilter.quicksort.by(ordering). -/
def sortByKey {α : Type} (key : α → Int) (l : List α) : List α :=
  List.insertionSort (keyLe key) l

/-- _computeOrderedGroups over an explicit array store: returns the store
after the call together with the returned array value. -/
def computeOrderedGroupsStore {α : Type} (key : α → Int)
    (st : List (List α)) (ref : Nat) : List (List α) × List α :=
  let data := st.getD ref []
  let dataCopy := data
  if dataCopy.length ≤ 1 then (st ++ [dataCopy], dataCopy)
  else (st ++ [sortByKey key dataCopy], sortByKey key dataCopy)

/-! ## Stacking layout engine (StackMixin, src/unnamed/part_000) -/

/-- A crossfilter group record as seen by the accessors: the default key
accessor plucks key, the default value accessor plucks value. -/
structure Record where
  key : Int
  value : Int
deriving DecidableEq, Repr

/-- A layer as pushed by the stack method: the wrapped group (its all()
records), the optional name, the optional per layer accessor, and the
hidden flag (absent on creation, toggled by hideStack and showStack). -/
structure SLayerIn where
  group : List Record
  name : Option String
  accessor : Option (Record → Nat → Int)
  hidden : Bool

/-- A per record point built by _prepareValues.  y is null (none) for a
hidden layer.  y0 and y1 are none until the stack layout writes them. -/
structure SPoint where
  x : Int
  y : Option Int
  data : Record
  layer : String
  hidden : Bool
  y0 : Option Int
  y1 : Option Int

/-- A prepared layer: resolved name, post domain filter values, and the
domainValues subset. -/
structure PLayer where
  group : List Record
  name : String
  values : List SPoint
  domainValues : List SPoint
  hidden : Bool

/-- Chart title functions map a record to its tooltip text. -/
def TitleFn : Type := Record → String

/-- The stacking view of a chart: the StackMixin state (_stack, _titles,
_evadeDomainFilter) together with the base chart state it reads (key and
value accessors, group and group name, chart wide title) and the
coordinate grid state the domain filter consults (the bound x scale with
its current domain, whether it is ordinal, whether elasticX is set). -/
structure StackChart where
  stack : List SLayerIn
  titles : String → Option TitleFn
  evadeDomainFilter : Bool
  keyAccessor : Record → Nat → Int
  valueAccessor : Record → Nat → Int
  groupRef : Option (List Record)
  groupName : Option String
  title : TitleFn
  renderTitle : Bool
  x : Option (List Int)
  isOrdinal : Bool
  elasticX : Bool

/-- _domainFilter from the StackMixin: pass everything when no x scale is
bound, when the scale is ordinal, or when elasticX is set; otherwise keep
points whose x lies between the first and last element of the domain,
inclusive.  An out of bounds domain index yields undefined in JavaScript
and both comparisons are then false. -/
def domainFilterFn (c : StackChart) : SPoint → Bool :=
  match c.x with
  | none => fun _ => true
  | some xDomain =>
    if c.isOrdinal then fun _ => true
    else if c.elasticX then fun _ => true
    else fun p =>
      match xDomain.head?, xDomain.getLast? with
      | some lo, some hi => decide (lo ≤ p.x) && decide (p.x ≤ hi)
      | _, _ => false

/-- The resolved layer name: String(layer.name || layerIdx), so an absent
or empty name falls back to the positional index. -/
def resolveLayerName (l : SLayerIn) (layerIdx : Nat) : String :=
  match l.name with
  | some s => if s.isEmpty then toString layerIdx else s
  | none => toString layerIdx

/-- The allValues list built by _prepareValues from layer.group.all(). -/
def allStackValues (c : StackChart) (l : SLayerIn) (layerIdx : Nat) : List SPoint :=
  l.group.enum.map (fun e =>
    { x := c.keyAccessor e.2 e.1
      y := if l.hidden then none else some ((l.accessor.getD c.valueAccessor) e.2 e.1)
      data := e.2
      layer := resolveLayerName l layerIdx
      hidden := l.hidden
      y0 := none
      y1 := none })

/-- _prepareValues from the StackMixin: build allValues, filter them with
the domain filter into domainValues, and select values by the
evadeDomainFilter flag. -/
def prepareValues (c : StackChart) (l : SLayerIn) (layerIdx : Nat) : PLayer :=
  let allValues := allStackValues c l layerIdx
  let domainValues := allValues.filter (domainFilterFn c)
  { group := l.group
    name := resolveLayerName l layerIdx
    values := if c.evadeDomainFilter then allValues else domainValues
    domainValues := domainValues
    hidden := l.hidden }

/-- Reading col[name] from a wide table row: a JavaScript object keyed by
layer name, where a later assignment to the same name wins. -/
def colValue (row : List (String × Option Int)) (k : String) : Option Int :=
  (row.reverse.find? (fun e => e.1 == k)).bind (fun e => e.2)

/-- The v4data wide table of the data callback: one row per index of the
first layer values, carrying that point x and, for every layer, the
assignment of its y at the same index under the layer name (an index past
a shorter layer reads undefined). -/
def v4dataOf (prepared : List PLayer) : List (Int × List (String × Option Int)) :=
  match prepared with
  | [] => []
  | l0 :: _ =>
    l0.values.enum.map (fun e =>
      (e.2.x, prepared.map (fun pl => (pl.name, (pl.values.get? e.1).bind (fun p => p.y)))))

/-- Modelled from the spec: the default stack layout (d3.stack of the
external d3 dependency) implements baseline stacking — for each key in
list order and each row, y0 accumulates the values of the preceding keys
and y1 adds the own value; a null or missing value contributes zero.
Returns one series per key, each a list of (y0, y1) pairs in row order. -/
def stackSpecLayout (keys : List String)
    (rows : List (Int × List (String × Option Int))) : List (List (Int × Int)) :=
  keys.enum.map (fun ke =>
    rows.map (fun r =>
      let y0 := ((keys.take ke.1).map (fun k => (colValue r.2 k).getD 0)).sum
      (y0, y0 + (colValue r.2 ke.2).getD 0)))

/-- The data callback installed by the StackMixin constructor: keep the
visible layers, prepare each, build the wide table from the first layer,
run the stack layout over the layer names, and write each series (y0, y1)
back onto the corresponding prepared layer points by index. -/
def dataFn (c : StackChart) : List PLayer :=
  let layers := c.stack.filter (fun l => !l.hidden)
  if layers.isEmpty then []
  else
    let prepared := layers.enum.map (fun e => prepareValues c e.2 e.1)
    let rows := v4dataOf prepared
    let keys := prepared.map (fun pl => pl.name)
    let series := stackSpecLayout keys rows
    prepared.enum.map (fun e =>
      { e.2 with values := e.2.values.enum.map (fun pe =>
          match (series.get? e.1).bind (fun s => s.get? pe.1) with
          | some ys => { pe.2 with y0 := some ys.1, y1 := some ys.2 }
          | none => pe.2) })

/-- The stack method of the StackMixin: push a new layer onto _stack.  The
JavaScript argument shuffle (a two argument call treats a function in name
position as the accessor) is represented by the caller passing the name
as nameArg only when it is a string and the accessor as accArg only when
it is a function. -/
def stackMethod (c : StackChart) (g : List Record) (nameArg : Option String)
    (accArg : Option (Record → Nat → Int)) : StackChart :=
  { c with stack := c.stack ++ [{ group := g, name := nameArg, accessor := accArg,
                                  hidden := false }] }

/-- The group setter of the StackMixin: clear _stack and _titles, stack the
new group under the given name, adopt a truthy third argument as the chart
wide value accessor, and delegate to the base group setter, which stores
the group and the group name. -/
def groupMethod (c : StackChart) (g : List Record) (n : Option String)
    (f : Option (Record → Nat → Int)) : StackChart :=
  let c1 := { c with stack := [], titles := fun _ => none }
  let c2 := stackMethod c1 g n none
  let c3 := match f with
            | some fn => { c2 with valueAccessor := fn }
            | none => c2
  { c3 with groupRef := some g, groupName := n }

/-- The base title setter from base-mixin.js: store the function and switch
renderTitle on. -/
def baseTitleSet (c : StackChart) (f : TitleFn) : StackChart :=
  { c with title := f, renderTitle := true }

/-- The StackMixin title method for a string stackName argument (result is
the new chart state plus the returned title function when the call was a
getter).  A falsy stackName falls into the no argument branch and returns
the chart wide title; a stackName equal to the stored group name together
with a function argument sets the chart wide title; without a function
argument the per stack title is returned, falling back to the chart wide
one; otherwise the function is stored as the per stack title. -/
def titleMethod (c : StackChart) (stackName : String) (fn : Option TitleFn) :
    StackChart × Option TitleFn :=
  if stackName.isEmpty then (c, some c.title)
  else if c.groupName = some stackName ∧ fn.isSome then
    (baseTitleSet c (fn.getD c.title), none)
  else
    match fn with
    | none => (c, some ((c.titles stackName).getD c.title))
    | some f => ({ c with titles := fun t => if t = stackName then some f else c.titles t },
                 none)

/-! ## Concrete instances used by examples and witnesses -/

/-- The two layer example of the spec: layer A with points (1,3),(2,5) and
layer B with points (1,2),(2,1), both visible, default accessors, no x
scale bound, domain filtering not evaded. -/
def exampleStackChart : StackChart :=
  { stack := [
      { group := [⟨1, 3⟩, ⟨2, 5⟩], name := some "A", accessor := none, hidden := false },
      { group := [⟨1, 2⟩, ⟨2, 1⟩], name := some "B", accessor := none, hidden := false }],
    titles := fun _ => none
    evadeDomainFilter := false
    keyAccessor := fun d _ => d.key
    valueAccessor := fun d _ => d.value
    groupRef := none
    groupName := none
    title := fun _ => ""
    renderTitle := false
    x := none
    isOrdinal := false
    elasticX := false }

/-- A chart holding a single ranged filter, used against the hasFilter
claim. -/
def isFilteredChart : FilterChart :=
  { filters := [.ranged 0 10], dimensionBound := false,
    filterHandler := defaultFilterHandler }

/-- A duplicate free filter set used to witness the toggle claim. -/
def toggleWitnessChart : FilterChart :=
  { filters := [.scalar 1, .scalar 2], dimensionBound := false,
    filterHandler := defaultFilterHandler }

/-- A filter handler offsetting every scalar filter by ten, as in the
filterHandler documentation example. -/
def offsetTen : FilterVal → FilterVal
  | .scalar m => .scalar (m + 10)
  | r => r

/-- A chart bound to a dimension whose handler offsets scalar filters by
ten. -/
def offsetHandlerChart : FilterChart :=
  { filters := [], dimensionBound := true,
    filterHandler := fun l => some (l.map offsetTen) }

/-- A chart whose group attribute is missing, used to witness the render
validation claim. -/
def missingGroupChart : LifecycleChart :=
  { mandatoryAttributes := some defaultMandatoryAttributes,
    getAttr := fun a => if a = "dimension" then some true else none,
    anchorName := "chart1", hasLegend := false, renderletCount := 0 }

/-- The ordering example of the spec, as records with keys 3, 1, 2. -/
def orderingExampleStore : List (List Record) :=
  [[⟨3, 0⟩, ⟨1, 0⟩, ⟨2, 0⟩]]

/-- A chart with a bound non ordinal, non elastic x scale with domain
[0, 5], used to witness the domain filter claim. -/
def domainChart : StackChart :=
  { exampleStackChart with x := some [0, 5] }

/-- A point with x = 3, inside the witness domain. -/
def insidePoint : SPoint :=
  { x := 3, y := some 1, data := ⟨3, 1⟩, layer := "A", hidden := false,
    y0 := none, y1 := none }

/-- A chart whose group was stacked under the name G, with no per stack
titles yet. -/
def titledChart : StackChart :=
  { exampleStackChart with groupName := some "G" }

/-- A concrete title function. -/
def sampleTitle : TitleFn := fun d => toString d.key

/-! ## Helper lemmas -/

/-- symEq is reflexive. -/
theorem symEq_refl (v : FilterVal) : symEq v v = true := by
  cases v <;> simp [symEq]

/-- On scalar and ranged filter values the symmetric JavaScript comparison
coincides with value equality. -/
theorem symEq_iff_eq (a b : FilterVal) : symEq a b = true ↔ b = a := by
  cases a <;> cases b <;> simp [symEq] <;> constructor <;> intro h
  · exact h.symm
  · exact h.symm
  · exact ⟨h.1.symm, h.2.symm⟩
  · exact ⟨h.1.symm, h.2.symm⟩

/-- symEq is symmetric. -/
theorem symEq_comm (a b : FilterVal) : symEq a b = symEq b a := by
  rw [Bool.eq_iff_iff, symEq_iff_eq, symEq_iff_eq, eq_comm]

/-- A permutation preserves any. -/
theorem perm_any_eq {α : Type} {l₁ l₂ : List α} (h : l₁.Perm l₂) (g : α → Bool) :
    l₁.any g = l₂.any g := by
  rw [Bool.eq_iff_iff]
  simp only [List.any_eq_true]
  constructor
  · rintro ⟨x, hx, hg⟩; exact ⟨x, h.mem_iff.mp hx, hg⟩
  · rintro ⟨x, hx, hg⟩; exact ⟨x, h.mem_iff.mpr hx, hg⟩

/-- With the default handler, applyFilters leaves the chart unchanged. -/
theorem applyFilters_default (c : FilterChart)
    (hH : c.filterHandler = defaultFilterHandler) : applyFiltersState c = c := by
  unfold applyFiltersState
  have h : c.filterHandler c.filters = some c.filters := by rw [hH]; rfl
  rw [h]
  split <;> rfl

/-- With the default handler, a single value filter call toggles the
stored list. -/
theorem filterOp_val_state (c : FilterChart) (v : FilterVal)
    (hH : c.filterHandler = defaultFilterHandler) :
    (filterOp c (.val v)).1 =
      { c with filters := if hasFilter c v then removeFirstMatch c.filters v
                          else c.filters ++ [v] } := by
  unfold filterOp
  cases h : hasFilter c v
  · simp only [h, Bool.false_eq_true, if_false]
    unfold addFilterOp
    exact applyFilters_default _ hH
  · simp only [h, if_true]
    unfold removeFilterOp
    exact applyFilters_default _ hH

/-- Removing v from a list with no symmetric match followed by v removes
exactly the appended element. -/
theorem removeFirstMatch_append_self (s : List FilterVal) (v : FilterVal)
    (h : ∀ f ∈ s, symEq f v = false) : removeFirstMatch (s ++ [v]) v = s := by
  induction s with
  | nil => simp [removeFirstMatch, symEq_refl]
  | cons f t ih =>
    have hf := h f (by simp)
    simp only [List.cons_append, removeFirstMatch, hf, Bool.false_eq_true, if_false,
      List.cons.injEq, true_and]
    exact ih (fun g hg => h g (by simp [hg]))

/-- In a pairwise distinct filter list containing a symmetric match of v,
the removeFilter loop removes exactly the unique match. -/
theorem removeFirstMatch_decomp (s : List FilterVal) (v : FilterVal)
    (hp : s.Pairwise (fun a b => symEq a b = false))
    (ha : s.any (fun f => symEq v f) = true) :
    ∃ p q, s = p ++ v :: q ∧ (p ++ q).any (fun f => symEq v f) = false ∧
      removeFirstMatch s v = p ++ q := by
  induction s with
  | nil => simp at ha
  | cons f t ih =>
    obtain ⟨hhead, htail⟩ := List.pairwise_cons.mp hp
    cases hf : symEq f v
    · have hv : symEq v f = false := by rw [symEq_comm]; exact hf
      have hat : t.any (fun g => symEq v g) = true := by
        simp only [List.any_cons, hv, Bool.false_or] at ha
        exact ha
      obtain ⟨p, q, hs, hany, hrem⟩ := ih htail hat
      refine ⟨f :: p, q, by rw [hs, List.cons_append], ?_, ?_⟩
      · simp only [List.cons_append, List.any_cons, hv, Bool.false_or]
        exact hany
      · simp only [removeFirstMatch, hf, Bool.false_eq_true, if_false, List.cons_append,
          List.cons.injEq, true_and]
        exact hrem
    · have hv : v = f := (symEq_iff_eq f v).mp hf
      refine ⟨[], t, by simp [hv], ?_, by simp [removeFirstMatch, hf]⟩
      simp only [List.nil_append]
      rw [List.any_eq_false]
      intro g hg
      have := hhead g hg
      rw [hv, this]
      simp

/-! ## Claim theorems -/

/-- Claim C1: for the two layer stacking example, layer A with points
(1,3),(2,5) and layer B with points (1,2),(2,1), both visible, the data
callback assigns at key x = 1 layer A y0 = 0, y1 = 3 and layer B y0 = 3,
y1 = 5, and at key x = 2 layer A y0 = 0, y1 = 5 and layer B y0 = 5,
y1 = 6: baseline stacking accumulates successive layer tops in list
order. -/
theorem stack_two_layer_example :
    (dataFn exampleStackChart).map
        (fun pl => (pl.name, pl.values.map (fun p => (p.x, p.y0, p.y1)))) =
      [("A", [(1, some 0, some 3), (2, some 0, some 5)]),
       ("B", [(1, some 3, some 5), (2, some 5, some 6)])] := by
  decide

/-- Claim C2: with the default filter handler, toggling a scalar filter
value twice over a duplicate free filter set restores the set (the result
is a permutation of the starting list, so every membership query agrees),
and after the first call hasFilter reports the value exactly when it was
absent before. -/
theorem filter_toggle_involution (c : FilterChart) (n : Int)
    (hH : c.filterHandler = defaultFilterHandler)
    (hset : c.filters.Pairwise (fun a b => symEq a b = false)) :
    hasFilter (filterOp c (.val (.scalar n))).1 (.scalar n) =
      !hasFilter c (.scalar n) ∧
    ((filterOp (filterOp c (.val (.scalar n))).1 (.val (.scalar n))).1.filters).Perm
      c.filters ∧
    (∀ w, hasFilter
        (filterOp (filterOp c (.val (.scalar n))).1 (.val (.scalar n))).1 w =
      hasFilter c w) := by
  set v := FilterVal.scalar n with hvdef
  have h1 := filterOp_val_state c v hH
  have hH1 : ((filterOp c (.val v)).1).filterHandler = defaultFilterHandler := by
    rw [h1]; exact hH
  have h2 := filterOp_val_state (filterOp c (.val v)).1 v hH1
  cases hA : hasFilter c v
  · -- v absent: first call appends, second removes the appended copy
    have hf1 : ((filterOp c (.val v)).1).filters = c.filters ++ [v] := by
      rw [h1, hA]; rfl
    have hmid : hasFilter (filterOp c (.val v)).1 v = true := by
      unfold hasFilter
      rw [hf1, List.any_append]
      simp [symEq_refl]
    have hnomem : ∀ f ∈ c.filters, symEq f v = false := by
      intro f hf
      have := List.any_eq_false.mp (by unfold hasFilter at hA; exact hA) f hf
      rw [symEq_comm]
      simpa using this
    have hf2 : ((filterOp (filterOp c (.val v)).1 (.val v)).1).filters = c.filters := by
      rw [h2, hmid]
      simp only [if_true]
      rw [hf1, removeFirstMatch_append_self c.filters v hnomem]
    refine ⟨hmid, by rw [hf2], ?_⟩
    intro w
    unfold hasFilter
    rw [hf2]
  · -- v present: first call removes the unique match, second appends it
    obtain ⟨p, q, hs, hany, hrem⟩ :=
      removeFirstMatch_decomp c.filters v hset (by unfold hasFilter at hA; exact hA)
    have hf1 : ((filterOp c (.val v)).1).filters = p ++ q := by
      rw [h1, hA]
      simp only [if_true]
      exact hrem
    have hmid : hasFilter (filterOp c (.val v)).1 v = false := by
      unfold hasFilter
      rw [hf1]
      exact hany
    have hf2 : ((filterOp (filterOp c (.val v)).1 (.val v)).1).filters =
        (p ++ q) ++ [v] := by
      rw [h2, hmid]
      simp only [Bool.false_eq_true, if_false]
      rw [hf1]
    have hperm : ((p ++ q) ++ [v]).Perm c.filters := by
      rw [hs, List.append_assoc]
      exact List.Perm.append_left p (List.perm_append_singleton v q)
    refine ⟨hmid, by rw [hf2]; exact hperm, ?_⟩
    intro w
    unfold hasFilter
    rw [hf2]
    exact perm_any_eq hperm _

/-- Claim C2 witness: toggling the scalar 2 twice on the filter set
[1, 2]. -/
theorem filter_toggle_involution_witness :
    hasFilter (filterOp toggleWitnessChart (.val (.scalar 2))).1 (.scalar 2) =
      !hasFilter toggleWitnessChart (.scalar 2) ∧
    ((filterOp (filterOp toggleWitnessChart (.val (.scalar 2))).1
        (.val (.scalar 2))).1.filters).Perm toggleWitnessChart.filters ∧
    (∀ w, hasFilter
        (filterOp (filterOp toggleWitnessChart (.val (.scalar 2))).1
          (.val (.scalar 2))).1 w =
      hasFilter toggleWitnessChart w) :=
  filter_toggle_involution toggleWitnessChart 2 rfl (by
    simp [toggleWitnessChart, List.pairwise_cons, symEq])

/-- Claim C4 counterexample: a stored ranged filter whose isFiltered
predicate accepts the scalar 5 is not reported by hasFilter, because the
source only performs the symmetric comparison; the claimed equivalence
fails at this input. -/
theorem hasFilter_isFiltered_cex :
    hasFilter isFilteredChart (.scalar 5) = false ∧
    hasFilterSpec isFilteredChart (.scalar 5) = true ∧
    ¬(hasFilter isFilteredChart (.scalar 5) = true ↔
      ∃ f ∈ isFilteredChart.filters, symEq (.scalar 5) f = true ∨
        (hasIsFiltered f = true ∧ isFilteredOn f (.scalar 5) = true)) := by
  refine ⟨by decide, by decide, ?_⟩
  intro h
  have : hasFilter isFilteredChart (.scalar 5) = true :=
    h.mpr ⟨.ranged 0 10, by decide, by decide⟩
  simp [hasFilter, isFilteredChart, symEq] at this

/-- Claim C4 amended: hasFilter(v) is true exactly when some stored filter
is symmetrically equal to v, which on scalar and ranged filter values
coincides with membership; the isFiltered capability of a stored filter is
never consulted by hasFilter. -/
theorem hasFilter_symmetric_only (c : FilterChart) (v : FilterVal) :
    hasFilter c v = true ↔ v ∈ c.filters := by
  unfold hasFilter
  rw [List.any_eq_true]
  constructor
  · rintro ⟨f, hf, he⟩
    rw [← (symEq_iff_eq v f).mp he]
    exact hf
  · intro hv
    exact ⟨v, hv, symEq_refl v⟩

/-- Claim C7: with the default filter handler, filter(null) empties the
filter set, hasFilter() is false afterwards, the filtered listener fires
exactly once with null, and filterAll() is the same operation. -/
theorem filter_null_clears (c : FilterChart)
    (hH : c.filterHandler = defaultFilterHandler) :
    (filterOp c .nullArg).1.filters = [] ∧
    hasAnyFilter (filterOp c .nullArg).1 = false ∧
    (filterOp c .nullArg).2 = [.filtered .nullArg] ∧
    filterAllOp c = filterOp c .nullArg := by
  have h : (filterOp c .nullArg).1 = { c with filters := [] } := by
    unfold filterOp resetFiltersOp
    exact applyFilters_default _ hH
  refine ⟨by rw [h], by rw [h]; rfl, rfl, rfl⟩

/-- Claim C7 witness: clearing the concrete filter set [1, 2]. -/
theorem filter_null_clears_witness :
    (filterOp toggleWitnessChart .nullArg).1.filters = [] ∧
    hasAnyFilter (filterOp toggleWitnessChart .nullArg).1 = false ∧
    (filterOp toggleWitnessChart .nullArg).2 = [.filtered .nullArg] ∧
    filterAllOp toggleWitnessChart = filterOp toggleWitnessChart .nullArg :=
  filter_null_clears toggleWitnessChart rfl

/-- Claim C8: after a filter mutation reaching a bound dimension, the
stored filter list is the list returned by the pluggable filter handler,
not the list that was passed in: toggling a fresh scalar on stores the
handler result for the passed list with the value appended, filter(null)
stores the handler result for the empty list, and hasFilter afterwards
reflects the transformed list. -/
theorem filter_handler_adopted (c : FilterChart) (n : Int)
    (fs gs : List FilterVal)
    (hd : c.dimensionBound = true)
    (hno : hasFilter c (.scalar n) = false)
    (hadd : c.filterHandler (c.filters ++ [.scalar n]) = some fs)
    (hreset : c.filterHandler [] = some gs) :
    (filterOp c (.val (.scalar n))).1.filters = fs ∧
    (∀ w, hasFilter (filterOp c (.val (.scalar n))).1 w =
      fs.any (fun f => symEq w f)) ∧
    (filterOp c .nullArg).1.filters = gs := by
  have h1 : (filterOp c (.val (.scalar n))).1.filters = fs := by
    unfold filterOp
    simp only [hno, Bool.false_eq_true, if_false]
    unfold addFilterOp applyFiltersState
    simp only [hd, if_true, hadd]
  refine ⟨h1, ?_, ?_⟩
  · intro w
    unfold hasFilter
    rw [h1]
  · unfold filterOp resetFiltersOp applyFiltersState
    simp only [hd, if_true, hreset]

/-- Claim C8 witness: filtering by 5 through the offsetting handler stores
15, and hasFilter reflects the transformed list. -/
theorem filter_handler_adopted_witness :
    (filterOp offsetHandlerChart (.val (.scalar 5))).1.filters = [.scalar 15] ∧
    (∀ w, hasFilter (filterOp offsetHandlerChart (.val (.scalar 5))).1 w =
      ([FilterVal.scalar 15].any (fun f => symEq w f))) ∧
    (filterOp offsetHandlerChart .nullArg).1.filters = [] :=
  filter_handler_adopted offsetHandlerChart 5 [.scalar 15] [] rfl (by decide)
    (by decide) rfl

/-- Claim C3: render fires preRender first; when the mandatory attribute
walk finds a failing attribute it throws an invalid state error whose
message names that attribute and the chart anchor identity and the full
draw hook is never reached; redraw carries no validation step and always
reaches the incremental draw hook. -/
theorem render_validation_redraw_skip (c : LifecycleChart)
    (attrs : List String) (a : String)
    (hm : c.mandatoryAttributes = some attrs)
    (hf : attrs.find? (fun x => !attrOk c x) = some a) :
    (render c).head? = some .preRender ∧
    render c = [.preRender, .invalidState (invalidStateMsg a c.anchorName)] ∧
    LcEvent.doRender ∉ render c ∧
    (redraw c).head? = some .preRedraw ∧
    LcEvent.doRedraw ∈ redraw c ∧
    (∀ m, LcEvent.invalidState m ∉ redraw c) := by
  have hr : render c = [.preRender, .invalidState (invalidStateMsg a c.anchorName)] := by
    unfold render
    simp only [hm, hf]
    rfl
  refine ⟨by rw [hr]; rfl, hr, by rw [hr]; simp, rfl, ?_, ?_⟩
  · unfold redraw drawTail
    simp
  · intro m
    unfold redraw drawTail
    simp

/-- Inserting x into a sorted list moves it only past strictly smaller
keys, so the sublist at any fixed key keeps x at its front exactly when x
carries that key. -/
theorem orderedInsert_filter_key {α : Type} (key : α → Int) (x : α) (l : List α)
    (k : Int) :
    (List.orderedInsert (keyLe key) x l).filter (fun z => key z == k) =
      if key x == k then x :: l.filter (fun z => key z == k)
      else l.filter (fun z => key z == k) := by
  induction l with
  | nil => simp [List.orderedInsert, List.filter_cons]
  | cons y t ih =>
    by_cases hr : keyLe key x y
    · rw [List.orderedInsert, if_pos hr]
      simp only [List.filter_cons]
    · rw [List.orderedInsert, if_neg hr]
      have hlt : key y < key x := not_le.mp hr
      rw [List.filter_cons, List.filter_cons, ih]
      by_cases hx : (key x == k) = true
      · have hxk : key x = k := by simpa using hx
        have hyk : (key y == k) = false := by
          have : ¬ key y = k := by omega
          simpa using this
        simp [hx, hyk]
      · have hx' : (key x == k) = false := by simpa using hx
        simp only [hx', Bool.false_eq_true, if_false]

theorem sortByKey_filter_key {α : Type} (key : α → Int) (l : List α) (k : Int) :
    (sortByKey key l).filter (fun z => key z == k) = l.filter (fun z => key z == k) := by
  induction l with
  | nil => rfl
  | cons a t ih =>
    show (List.orderedInsert (keyLe key) a (sortByKey key t)).filter _ = _
    rw [orderedInsert_filter_key, List.filter_cons, ih]

theorem sorted_of_len_le_one {α : Type} (r : α → α → Prop) (l : List α)
    (h : l.length ≤ 1) : l.Sorted r := by
  match l with
  | [] => exact List.sorted_nil
  | [a] => exact List.sorted_singleton a
  | a :: b :: t => simp at h

/-- Claim C5: the ordering utility leaves every pre existing array cell of
the store untouched (the slice copy is the only cell written), returns a
permutation of the input sorted ascending by extracted key with a stable
comparison (for every key the sublist with that key keeps its input
order), and returns arrays of length at most one unchanged in value. -/
theorem compute_ordered_groups_correct {α : Type} (key : α → Int)
    (st : List (List α)) (ref : Nat) :
    (computeOrderedGroupsStore key st ref).1.take st.length = st ∧
    ((computeOrderedGroupsStore key st ref).2).Perm (st.getD ref []) ∧
    List.Sorted (keyLe key) (computeOrderedGroupsStore key st ref).2 ∧
    (∀ k, ((computeOrderedGroupsStore key st ref).2).filter (fun z => key z == k) =
      (st.getD ref []).filter (fun z => key z == k)) ∧
    ((st.getD ref []).length ≤ 1 →
      (computeOrderedGroupsStore key st ref).2 = st.getD ref []) := by
  by_cases h : (st.getD ref []).length ≤ 1
  · have hv : computeOrderedGroupsStore key st ref =
        (st ++ [st.getD ref []], st.getD ref []) := by
      unfold computeOrderedGroupsStore
      simp only [h, if_true]
    rw [hv]
    exact ⟨List.take_left st _, List.Perm.refl _,
      sorted_of_len_le_one _ _ h, fun _ => rfl, fun _ => rfl⟩
  · have hv : computeOrderedGroupsStore key st ref =
        (st ++ [sortByKey key (st.getD ref [])], sortByKey key (st.getD ref [])) := by
      unfold computeOrderedGroupsStore
      simp only [h, if_false]
    rw [hv]
    exact ⟨List.take_left st _, List.perm_insertionSort _ _,
      List.sorted_insertionSort _ _, fun k => sortByKey_filter_key key _ k,
      fun hc => absurd hc h⟩

/-- Claim C5 witness: sorting the records with keys 3, 1, 2 held in cell
zero of the store. -/
theorem compute_ordered_groups_correct_witness :
    (computeOrderedGroupsStore (fun r : Record => r.key) orderingExampleStore 0).1.take
        orderingExampleStore.length = orderingExampleStore ∧
    ((computeOrderedGroupsStore (fun r : Record => r.key) orderingExampleStore 0).2).Perm
      (orderingExampleStore.getD 0 []) ∧
    List.Sorted (keyLe (fun r : Record => r.key))
      (computeOrderedGroupsStore (fun r : Record => r.key) orderingExampleStore 0).2 ∧
    (∀ k, ((computeOrderedGroupsStore (fun r : Record => r.key)
        orderingExampleStore 0).2).filter (fun z => z.key == k) =
      (orderingExampleStore.getD 0 []).filter (fun z => z.key == k)) ∧
    ((orderingExampleStore.getD 0 []).length ≤ 1 →
      (computeOrderedGroupsStore (fun r : Record => r.key) orderingExampleStore 0).2 =
        orderingExampleStore.getD 0 []) :=
  compute_ordered_groups_correct (fun r : Record => r.key) orderingExampleStore 0

/-- Claim C3 witness: a chart with a dimension but no group fails render
validation on the group attribute, while redraw proceeds. -/
theorem render_validation_redraw_skip_witness :
    (render missingGroupChart).head? = some .preRender ∧
    render missingGroupChart =
      [.preRender, .invalidState (invalidStateMsg "group" missingGroupChart.anchorName)] ∧
    LcEvent.doRender ∉ render missingGroupChart ∧
    (redraw missingGroupChart).head? = some .preRedraw ∧
    LcEvent.doRedraw ∈ redraw missingGroupChart ∧
    (∀ m, LcEvent.invalidState m ∉ redraw missingGroupChart) :=
  render_validation_redraw_skip missingGroupChart defaultMandatoryAttributes "group"
    rfl (by decide)

/-- Claim C6: the domain filter passes every point when no x scale is
bound, when the scale is ordinal, or when it is elastic; otherwise it
keeps exactly the points whose x lies within the domain bounds inclusive.
The filtered subset becomes domainValues, and values is the unfiltered
full point list when the evade domain filter flag is set and equals
domainValues otherwise. -/
theorem domain_filter_evade_spec (c : StackChart) (l : SLayerIn) (idx : Nat) :
    (c.x = none ∨ c.isOrdinal = true ∨ c.elasticX = true →
      ∀ p, domainFilterFn c p = true) ∧
    (∀ dom lo hi, c.x = some dom → c.isOrdinal = false → c.elasticX = false →
      dom.head? = some lo → dom.getLast? = some hi →
      ∀ p, domainFilterFn c p = true ↔ lo ≤ p.x ∧ p.x ≤ hi) ∧
    (∀ p, p ∈ (prepareValues c l idx).domainValues ↔
      p ∈ allStackValues c l idx ∧ domainFilterFn c p = true) ∧
    ((prepareValues c l idx).values =
      if c.evadeDomainFilter then allStackValues c l idx
      else (prepareValues c l idx).domainValues) := by
  refine ⟨?_, ?_, ?_, ?_⟩
  · rintro (hx | hord | hela) p
    · unfold domainFilterFn
      rw [hx]
    · unfold domainFilterFn
      cases hx : c.x with
      | none => rfl
      | some dom => rw [hord]; rfl
    · unfold domainFilterFn
      cases hx : c.x with
      | none => rfl
      | some dom =>
        cases hord : c.isOrdinal with
        | true => rfl
        | false => rw [hela]; rfl
  · intro dom lo hi hx hord hela hlo hhi p
    unfold domainFilterFn
    simp only [hx, hord, hela, Bool.false_eq_true, if_false, hlo, hhi]
    simp
  · intro p
    show p ∈ (allStackValues c l idx).filter (domainFilterFn c) ↔ _
    exact List.mem_filter
  · rfl

/-- Claim C6 witness: on the domain [0, 5] the filter keeps x = 3, and
with the evade flag off values coincides with domainValues. -/
theorem domain_filter_evade_spec_witness :
    domainFilterFn domainChart insidePoint = true ∧
    (prepareValues domainChart (domainChart.stack.getD 0
        { group := [], name := none, accessor := none, hidden := false }) 0).values =
      (prepareValues domainChart (domainChart.stack.getD 0
        { group := [], name := none, accessor := none, hidden := false }) 0).domainValues := by
  have h := domain_filter_evade_spec domainChart
    (domainChart.stack.getD 0 { group := [], name := none, accessor := none, hidden := false }) 0
  constructor
  · exact (h.2.1 [0, 5] 0 5 rfl rfl rfl rfl rfl insidePoint).mpr (by decide)
  · have hv := h.2.2.2
    rw [hv]
    rfl

/-- Claim C9: the group setter discards all previously stacked layers and
all per stack titles, leaves exactly one layer wrapping the new group
under the given name, stores the group and group name, and adopts a given
third argument as the chart wide value accessor. -/
theorem group_setter_resets (c : StackChart) (g : List Record)
    (n : Option String) (f : Option (Record → Nat → Int)) :
    (groupMethod c g n f).stack =
      [{ group := g, name := n, accessor := none, hidden := false }] ∧
    (∀ s, (groupMethod c g n f).titles s = none) ∧
    (groupMethod c g n f).groupRef = some g ∧
    (groupMethod c g n f).groupName = n ∧
    (groupMethod c g n f).valueAccessor = f.getD c.valueAccessor := by
  cases f <;>
    exact ⟨rfl, fun _ => rfl, rfl, rfl, rfl⟩

/-- Claim C10: when the stack name equals the stored group name, the title
method with a function argument sets the chart wide default title; for any
other non empty stack name it stores the function as that stack title and
leaves the chart wide title alone; without a function argument it returns
the stored per stack title, falling back to the chart wide default. -/
theorem title_stack_dispatch (c : StackChart) (s : String) (f : TitleFn)
    (hs : ¬ s = "") :
    (c.groupName = some s → titleMethod c s (some f) = (baseTitleSet c f, none)) ∧
    (¬ c.groupName = some s →
      titleMethod c s (some f) =
        ({ c with titles := fun t => if t = s then some f else c.titles t }, none)) ∧
    (titleMethod c s none = (c, some ((c.titles s).getD c.title))) := by
  have hse : s.isEmpty = false := by
    rw [Bool.eq_false_iff]
    intro he
    exact hs ((String.isEmpty_iff s).mp he)
  refine ⟨?_, ?_, ?_⟩
  · intro hg
    unfold titleMethod
    rw [hse]
    simp only [Bool.false_eq_true, if_false]
    rw [if_pos ⟨hg, rfl⟩]
    rfl
  · intro hg
    unfold titleMethod
    rw [hse]
    simp only [Bool.false_eq_true, if_false]
    rw [if_neg (fun hc => hg hc.1)]
  · unfold titleMethod
    rw [hse]
    simp only [Bool.false_eq_true, if_false]
    rw [if_neg (fun hc => by simpa using hc.2)]

/-- Claim C10 witness: on a chart whose group name is G, setting a title
for stack S stores it per stack and the getter returns it, while setting a
title for G replaces the chart wide default. -/
theorem title_stack_dispatch_witness :
    (titleMethod titledChart "S" (some sampleTitle)).1.titles "S" = some sampleTitle ∧
    (titleMethod titledChart "G" (some sampleTitle)).1.title = sampleTitle ∧
    (titleMethod titledChart "S" none).2 = some titledChart.title := by
  have hS := title_stack_dispatch titledChart "S" sampleTitle (by decide)
  have hG := title_stack_dispatch titledChart "G" sampleTitle (by decide)
  refine ⟨?_, ?_, ?_⟩
  · rw [hS.2.1 (by decide)]
    rfl
  · rw [hG.1 rfl]
    rfl
  · rw [hS.2.2]
    rfl

end DC
